import Mathlib

/-!
Shallow embedding of the py-detective repository (finder.py, grepper.py).

Conventions of the embedding:
* Bytes are `Nat` values (file contents are `List Nat`; real reads only ever
  produce values below 256, but none of the definitions depend on that bound).
* Paths are lists of components (`List String`); joining components with the
  POSIX separator is made explicit where the source operates on the joined
  string (`os.path.splitext`, `str.endswith`).  `os.path.normcase` is the
  identity on POSIX and is embedded as such.
* Python exceptions are the `PyErr` type; `Except PyErr` models code that can
  raise.  `except OSError` handlers (and `except IOError`, an alias of
  `OSError` in Python 3) catch exactly `PyErr.osError`; the catch-all
  `except Exception` in `_is_binary_file` catches every constructor.
* The filesystem seen by one invocation is a `Node` snapshot: per-entry stat
  results, symlink flags, readability, raw bytes and the outcome of gzip
  decompression are recorded in the snapshot, mirroring the data the source
  obtains from `os.stat`, `os.path.islink`, `open`, `f.read` and `gzip.open`.
-/

/-- Classification tags returned by the Finder methods (the source uses the
string literals with the same names). -/
inductive Kind where
  | skip
  | link
  | directory
  | text
  | binary
  | gzip
  | unreadable
deriving DecidableEq, Repr

/-- Python exceptions relevant to this code base.  `osError` stands for
`OSError` and its aliases/subclasses (`IOError`, `BadGzipFile`); `eofError`
for `EOFError` (raised by truncated gzip streams); `unboundLocalError` for
`UnboundLocalError` (raised when a local variable is referenced before
assignment). -/
inductive PyErr where
  | osError
  | eofError
  | unboundLocalError
deriving DecidableEq, Repr

instance {ε α : Type} [DecidableEq ε] [DecidableEq α] : DecidableEq (Except ε α) := fun a b =>
  match a, b with
  | .ok x, .ok y => if h : x = y then .isTrue (by rw [h]) else .isFalse (by simp [h])
  | .error x, .error y => if h : x = y then .isTrue (by rw [h]) else .isFalse (by simp [h])
  | .ok _, .error _ => .isFalse (by simp)
  | .error _, .ok _ => .isFalse (by simp)

/-- TEXTCHARS from finder.py line 28: bytes 7,8,9,10,12,13,27 together with
the range 0x20..0xFF (224 values). -/
def TEXTCHARS : List Nat := [7, 8, 9, 10, 12, 13, 27] ++ List.range' 0x20 0xE0

/-- ALLBYTES from finder.py line 29: the identity byte table 0..255. -/
def ALLBYTES : List Nat := List.range 256

/-- Embedding of `bs.translate(table, deletechars)` for byte strings: the
bytes occurring in `deletechars` are removed and the remaining ones are
mapped through the 256-entry table. -/
def bytesTranslate (bs table deletechars : List Nat) : List Nat :=
  (bs.filter (fun b => !(decide (b ∈ deletechars)))).map (fun b => table.getD b b)

/-- The pure core of the binary test (finder.py lines 83-84): the probe is
binary iff deleting every TEXTCHARS byte leaves something over. -/
def is_binary_probe (bs : List Nat) : Bool :=
  !(bytesTranslate bs ALLBYTES TEXTCHARS).isEmpty

/-- Embedding of `Finder._is_binary_file` (finder.py lines 71-86), taking the
outcome of `f.read(self.binary_bytes)` as input.  When the read raises, the
`except` clause assigns `is_binary = True`, but control then falls through to
line 83 which reads the local variable `bytes` that was never assigned, so
the function raises `UnboundLocalError` instead of returning. -/
def is_binary_file (readResult : Except PyErr (List Nat)) : Except PyErr Bool :=
  match readResult with
  | .ok bs => .ok (is_binary_probe bs)
  | .error _ => .error .unboundLocalError

/-- Snapshot of one regular file as seen through `open`/`read`/`gzip.open`:
whether `open(path, 'rb')` raises, the raw bytes, whether reading the raw
handle raises, and the outcome of reading the whole stream through
`gzip.open` (decompression). -/
structure FileData where
  open_fails : Bool
  content : List Nat
  probe_fails : Bool
  gunzip : Except PyErr (List Nat)

/-- Index of the last occurrence of a character in a list, mirroring
`str.rfind` (but `none` plays the role of -1). -/
def lastIdxOf (c : Char) : List Char → Option Nat
  | [] => none
  | x :: xs =>
    match lastIdxOf c xs with
    | some k => some (k + 1)
    | none => if x = c then some 0 else none

/-- Embedding of POSIX `os.path.splitext`: split at the last dot of the last
component, except that a run of leading dots of the basename never starts an
extension. -/
def splitext (p : List Char) : List Char × List Char :=
  let start :=
    match lastIdxOf '/' p with
    | none => 0
    | some k => k + 1
  match lastIdxOf '.' p with
  | none => (p, [])
  | some di =>
    let leadDots := ((p.drop start).takeWhile (fun c => c = '.')).length
    if start + leadDots < di then (p.take di, p.drop di) else (p, [])

/-- Join path components with the POSIX separator (as a character list). -/
def joinPath (ps : List String) : List Char :=
  List.intercalate ['/'] (ps.map String.data)

/-- Test `basename.startswith('.')`. -/
def startsWithDot (s : String) : Bool :=
  match s.data with
  | c :: _ => c = '.'
  | [] => false

/-- Test `ext.startswith('.~')`. -/
def startsWithDotTilde : List Char → Bool
  | '.' :: '~' :: _ => true
  | _ => false

/-- Gzip magic bytes 0x1F 0x8B (finder.py line 32). -/
def GZIP_MAGIC : List Nat := [0x1F, 0x8B]

/-- Configuration attributes of a Finder instance after `__init__` ran
(finder.py lines 51-69). -/
structure Finder where
  skip_sub_dirs : Bool
  skip_hidden_dirs : Bool
  skip_hidden_files : Bool
  skip_dirs : List String
  skip_symlink_dirs : Bool
  skip_symlink_files : Bool
  binary_bytes : Nat
  skip_exts_simple : List String
  skip_exts_endswith : List String

/-- Embedding of `Finder.__init__` (finder.py lines 51-69): the configured
skip extensions are partitioned once, according to whether
`os.path.splitext('foo.bar' + ext)[1] == ext`, into the exact set and the
suffix list. -/
def Finder.init (ssd shd shf : Bool) (sd : List String) (skip_exts : List String)
    (ssld sslf : Bool) (bb : Nat) : Finder :=
  ⟨ssd, shd, shf, sd, ssld, sslf, bb,
    skip_exts.filter (fun ext => (splitext ("foo.bar" ++ ext).data).2 = ext.data),
    skip_exts.filter (fun ext => ¬((splitext ("foo.bar" ++ ext).data).2 = ext.data))⟩

/-- Embedding of `Finder._is_gzipped_text` (finder.py lines 88-104).  The
two-byte marker read is modelled on the recorded raw bytes (in every path
reaching this function the file was just opened and probed successfully).
When the marker matches, the gzip stream is read through `_is_binary_file`;
its `except Exception` clause fires first on a decompression failure, so the
local `except IOError` handler here only sees what escapes it. -/
def Finder.is_gzipped_text (F : Finder) (fd : FileData) : Except PyErr Bool :=
  if fd.content.take 2 = GZIP_MAGIC then
    let readResult : Except PyErr (List Nat) :=
      match fd.gunzip with
      | .ok bs => .ok (bs.take F.binary_bytes)
      | .error e => .error e
    match is_binary_file readResult with
    | .ok b => .ok (!b)
    | .error .osError => .ok false
    | .error e => .error e
  else .ok false

/-- Embedding of `Finder.categorize_directory` (finder.py lines 123-138). -/
def Finder.categorize_directory (F : Finder) (path : List String) (is_link : Bool) : Kind :=
  let basename := path.getLastD ""
  if F.skip_hidden_dirs = true ∧ startsWithDot basename = true ∧ basename ≠ "." ∧ basename ≠ ".." then
    .skip
  else if F.skip_symlink_dirs = true ∧ is_link = true then
    .link
  else if basename ∈ F.skip_dirs then
    .skip
  else
    .directory

/-- Embedding of `Finder.categorize_file` (finder.py lines 140-169).
`os.path.normcase` is the identity on POSIX, so the normalized path is the
joined path itself.  The `try` block catches `(OSError, IOError)` only, so an
`UnboundLocalError` coming out of `_is_binary_file` escapes. -/
def Finder.categorize_file (F : Finder) (path : List String) (is_link : Bool)
    (fd : FileData) : Except PyErr Kind :=
  let basename := path.getLastD ""
  if F.skip_hidden_files = true ∧ startsWithDot basename = true then
    .ok .skip
  else if F.skip_symlink_files = true ∧ is_link = true then
    .ok .link
  else
    let pnc := joinPath path
    let ext := (splitext pnc).2
    if String.mk ext ∈ F.skip_exts_simple ∨ startsWithDotTilde ext = true then
      .ok .skip
    else if F.skip_exts_endswith.any (fun e => e.data.isSuffixOf pnc) then
      .ok .skip
    else if fd.open_fails = true then
      .ok .unreadable
    else
      match is_binary_file
          (if fd.probe_fails then .error .osError else .ok (fd.content.take F.binary_bytes)) with
      | .error .osError => .ok .unreadable
      | .error e => .error e
      | .ok true =>
        match F.is_gzipped_text fd with
        | .ok true => .ok .gzip
        | .ok false => .ok .binary
        | .error .osError => .ok .unreadable
        | .error e => .error e
      | .ok false => .ok .text

/-- Snapshot of one filesystem entry: a regular file (with its symlink flag
and `FileData`), a directory (symlink flag, whether `os.listdir` succeeds,
and the named children), anything else (device, socket, fifo), or an entry
whose `os.stat` raises `OSError`. -/
inductive Node where
  | file (is_link : Bool) (fd : FileData)
  | dir (is_link : Bool) (list_ok : Bool) (children : List (String × Node))
  | special
  | stat_fails

/-- Embedding of `Finder.categorize_path` (finder.py lines 106-121). -/
def Finder.categorize_path (F : Finder) (path : List String) (n : Node) : Except PyErr Kind :=
  match n with
  | .stat_fails => .ok .unreadable
  | .special => .ok .skip
  | .file il fd => F.categorize_file path il fd
  | .dir il _ _ => .ok (F.categorize_directory path il)

/-- The kinds that `traverse` yields: `kind in ('binary', 'text', 'gzip')`. -/
def Kind.matchable : Kind → Bool
  | .binary => true
  | .text => true
  | .gzip => true
  | _ => false

/-- Ordering of directory children by basename, as produced by
`sorted(basenames)` (Python sorts strings by code points, which coincides
with byte-lexicographic order of their UTF-8 encodings). -/
def childLE (a b : String × Node) : Prop := a.1 ≤ b.1

instance : DecidableRel childLE := fun a b => String.decidableLE a.1 b.1

instance : IsTotal (String × Node) childLE := ⟨fun a b => le_total a.1 b.1⟩

instance : IsTrans (String × Node) childLE := ⟨fun _ _ _ h1 h2 => le_trans h1 h2⟩

/-- Embedding of `Grepper.do_grep` (grepper.py lines 55-74).  The inputs
summarize one invocation: `search_file_contents` from the constructor, the
outcome of `os.stat(filename).st_size`, whether `self.regex.search(filename)`
finds a match, whether `self._openers[kind](filename, 'rb')` succeeds, and
the outcome of `self._grep_contents(f, kind)`.  The initial stat is outside
any handler, so its exception propagates.  When the opener raises, the
`finally` clause reads the unassigned local `f`, raising
`UnboundLocalError` in place of the original exception. -/
def do_grep (search_file_contents : Bool) (stat_size : Except PyErr Nat)
    (name_found : Bool) (open_ok : Bool)
    (content_found : Except PyErr Bool) : Except PyErr Bool :=
  match stat_size with
  | .error e => .error e
  | .ok sz =>
    if sz ≠ 0 then
      if search_file_contents then
        if open_ok then
          match content_found with
          | .ok true => .ok true
          | .ok false => .ok false
          | .error e => .error e
        else
          .error .unboundLocalError
      else
        if name_found then .ok true else .ok false
    else
      .ok false

/-- Inserting one element keeps the total size of a list of children. -/
theorem sizeOf_orderedInsert (a : String × Node) (l : List (String × Node)) :
    sizeOf (List.orderedInsert childLE a l) = sizeOf (a :: l) := by
  induction l with
  | nil => rfl
  | cons b t ih =>
    simp only [List.orderedInsert]
    split
    · rfl
    · simp only [List.cons.sizeOf_spec] at *
      omega

/-- Sorting the children of a directory keeps their total size. -/
theorem sizeOf_insertionSort (l : List (String × Node)) :
    sizeOf (List.insertionSort childLE l) = sizeOf l := by
  induction l with
  | nil => rfl
  | cons a t ih =>
    simp only [List.insertionSort, sizeOf_orderedInsert, List.cons.sizeOf_spec, ih]

mutual

/-- Embedding of `Finder.traverse` (finder.py lines 171-197) on a filesystem
snapshot.  The result is the list of yielded `(path, kind)` pairs together
with the exception, if any, that escapes the generator after those yields
(an `UnboundLocalError` out of `categorize_path` ends the iteration). -/
def Finder.traverse (F : Finder) (path : List String) (n : Node) :
    List (List String × Kind) × Option PyErr :=
  match F.categorize_path path n with
  | .error e => ([], some e)
  | .ok k =>
    if k.matchable = true then
      ([(path, k)], none)
    else if k = Kind.directory then
      match n with
      | .dir _ list_ok children =>
        if list_ok = true then
          F.traverse_children path (List.insertionSort childLE children)
        else
          ([], none)
      | _ => ([], none)
    else
      ([], none)
termination_by sizeOf n
decreasing_by
  simp only [sizeOf_insertionSort, Node.dir.sizeOf_spec]
  omega

/-- The `for basename in sorted(basenames)` loop body of `Finder.traverse`
(finder.py lines 188-196), running on an already sorted child list. -/
def Finder.traverse_children (F : Finder) (path : List String) :
    List (String × Node) → List (List String × Kind) × Option PyErr
  | [] => ([], none)
  | (name, c) :: rest =>
    let cpath := path ++ [name]
    match F.categorize_path cpath c with
    | .error e => ([], some e)
    | .ok k =>
      if k.matchable = true then
        let r := F.traverse_children path rest
        ((cpath, k) :: r.1, r.2)
      else if k = Kind.directory then
        if F.skip_sub_dirs = false then
          let s := F.traverse cpath c
          match s.2 with
          | some e => (s.1, some e)
          | none =>
            let r := F.traverse_children path rest
            (s.1 ++ r.1, r.2)
        else
          F.traverse_children path rest
      else
        F.traverse_children path rest
termination_by l => sizeOf l
decreasing_by
  all_goals
    simp only [List.cons.sizeOf_spec, Prod.mk.sizeOf_spec]
    omega

end

/-- What the loop body of `traverse` contributes for one child entry:
yield the pair when matchable, recurse when it is a directory and
`skip_sub_dirs` is off, nothing otherwise, and an escaping exception when
classification raises. -/
def childStep (F : Finder) (path : List String) (nc : String × Node) :
    List (List String × Kind) × Option PyErr :=
  match F.categorize_path (path ++ [nc.1]) nc.2 with
  | .error e => ([], some e)
  | .ok k =>
    if k.matchable = true then ([(path ++ [nc.1], k)], none)
    else if k = Kind.directory ∧ F.skip_sub_dirs = false then F.traverse (path ++ [nc.1]) nc.2
    else ([], none)

/-- Chain generator segments left to right: each segment's yields appear in
order, and the first segment that ends in an exception cuts the sequence
short. -/
def seqChain : List (List (List String × Kind) × Option PyErr) →
    List (List String × Kind) × Option PyErr
  | [] => ([], none)
  | (ys, some e) :: _ => (ys, some e)
  | (ys, none) :: rs =>
    let t := seqChain rs
    (ys ++ t.1, t.2)

/-- A gzip file as `categorize_file` sees it: magic header bytes, a binary
raw probe, and ASCII "secret" as decompressed content. -/
def fdSecret : FileData := ⟨false, [0x1F, 0x8B, 8, 0, 5], false, .ok [115, 101, 99, 114, 101, 116]⟩

/-- A gzip-headed file whose decompressed probe is binary. -/
def fdGzBinary : FileData := ⟨false, [0x1F, 0x8B, 8, 0, 5], false, .ok [0, 1, 2]⟩

/-- A gzip-headed file whose stream fails to decompress (corrupt stream:
reading through `gzip.open` raises). -/
def fdGzCorrupt : FileData := ⟨false, [0x1F, 0x8B, 8], false, .error .osError⟩

/-- A text file holding ASCII "hi". -/
def fdHello : FileData := ⟨false, [104, 105], false, .error .osError⟩

/-- A Finder built with all-default options. -/
def finderDefault : Finder := Finder.init true false false [] [] true true 4096

/-- A Finder built with skip extension set {".gz"}. -/
def finderSkipGz : Finder := Finder.init true false false [] [".gz"] true true 4096

/-- A Finder built with skip extension set {".tar.gz"}. -/
def finderSkipTarGz : Finder := Finder.init true false false [] [".tar.gz"] true true 4096

/-- The hidden-directory test of `categorize_directory`: the basename
starts with a dot and is neither `.` nor `..`. -/
def hiddenDirName (s : String) : Bool :=
  startsWithDot s && !(decide (s = ".")) && !(decide (s = ".."))

/-- A Finder built with default options except skip_hidden_dirs. -/
def finderHiddenDirs : Finder := Finder.init true true false [] [] true true 4096

/-- Bytes of TEXTCHARS are exactly the allow-set named by the specification:
the seven control characters 7,8,9,10,12,13,27 and the range 0x20..0xFF. -/
theorem mem_TEXTCHARS (b : Nat) :
    b ∈ TEXTCHARS ↔ (b ∈ [7, 8, 9, 10, 12, 13, 27] ∨ (0x20 ≤ b ∧ b ≤ 0xFF)) := by
  simp only [TEXTCHARS, List.mem_append, List.mem_range'_1]
  constructor
  · rintro (h | h)
    · exact Or.inl h
    · exact Or.inr ⟨h.1, by omega⟩
  · rintro (h | h)
    · exact Or.inl h
    · exact Or.inr ⟨h.1, by omega⟩

/-- The binary test fires exactly on buffers holding a byte outside
TEXTCHARS. -/
theorem is_binary_probe_iff (bs : List Nat) :
    is_binary_probe bs = true ↔ ∃ b ∈ bs, b ∉ TEXTCHARS := by
  induction bs with
  | nil => simp [is_binary_probe, bytesTranslate]
  | cons a t ih =>
    by_cases ha : a ∈ TEXTCHARS
    · have hstep : is_binary_probe (a :: t) = is_binary_probe t := by
        simp [is_binary_probe, bytesTranslate, List.filter_cons, ha]
      rw [hstep, ih]
      constructor
      · rintro ⟨b, hb, hnb⟩
        exact ⟨b, List.mem_cons_of_mem a hb, hnb⟩
      · rintro ⟨b, hb, hnb⟩
        rcases List.mem_cons.mp hb with h | h
        · subst h
          exact absurd ha hnb
        · exact ⟨b, h, hnb⟩
    · have hstep : is_binary_probe (a :: t) = true := by
        simp [is_binary_probe, bytesTranslate, List.filter_cons, ha]
      rw [hstep]
      simp only [true_iff]
      exact ⟨a, List.mem_cons_self a t, ha⟩

/-- C1: a probe buffer tests binary iff it contains at least one byte outside
the allow-set {7,8,9,10,12,13,27} ∪ [0x20,0xFF]; in particular every byte in
0x7F..0xFF counts as text. -/
theorem c1_binary_iff_byte_outside_allowset :
    (∀ bs : List Nat, is_binary_probe bs = true ↔
      ∃ b ∈ bs, ¬(b ∈ [7, 8, 9, 10, 12, 13, 27] ∨ (0x20 ≤ b ∧ b ≤ 0xFF))) ∧
    (∀ b : Nat, 0x7F ≤ b → b ≤ 0xFF → is_binary_probe [b] = false) := by
  have core : ∀ bs : List Nat, is_binary_probe bs = true ↔
      ∃ b ∈ bs, ¬(b ∈ [7, 8, 9, 10, 12, 13, 27] ∨ (0x20 ≤ b ∧ b ≤ 0xFF)) := by
    intro bs
    rw [is_binary_probe_iff]
    constructor
    · rintro ⟨b, hb, hnb⟩
      exact ⟨b, hb, fun hc => hnb ((mem_TEXTCHARS b).mpr hc)⟩
    · rintro ⟨b, hb, hnb⟩
      exact ⟨b, hb, fun hc => hnb ((mem_TEXTCHARS b).mp hc)⟩
  refine ⟨core, fun b h1 h2 => ?_⟩
  rcases h : is_binary_probe [b] with _ | _
  · rfl
  · exfalso
    rcases ((core [b]).mp h) with ⟨c, hc, hout⟩
    simp only [List.mem_singleton] at hc
    subst hc
    exact hout (Or.inr ⟨by omega, h2⟩)

/-- Witness for C1 at concrete bytes: 0x00 is binary, 0x7F is text. -/
theorem c1_witness : is_binary_probe [0] = true ∧ is_binary_probe [0x7F] = false :=
  ⟨(c1_binary_iff_byte_outside_allowset.1 [0]).mpr ⟨0, by simp, by decide⟩,
   c1_binary_iff_byte_outside_allowset.2 0x7F (by decide) (by decide)⟩

/-- C4: a zero-byte file never matches, in name mode and in content mode
alike (`do_grep` skips straight to the final `return False`). -/
theorem c4_zero_size_never_matches (sfc nf oo : Bool) (cf : Except PyErr Bool) :
    do_grep sfc (.ok 0) nf oo cf = .ok false := by
  simp [do_grep]

/-- C10: `do_grep` stats the file before anything else, so a failing stat
propagates its exception in both modes, even though name matching never
needs the contents. -/
theorem c10_stat_failure_propagates (e : PyErr) (sfc nf oo : Bool) (cf : Except PyErr Bool) :
    do_grep sfc (.error e) nf oo cf = .error e := rfl

/-- C7: the hidden-name check precedes the symlink check, so with both
`skip_hidden_dirs` and `skip_symlink_dirs` set, a hidden symlinked directory
is classified `skip`, not `link`. -/
theorem c7_hidden_check_precedes_symlink_check (F : Finder) (path : List String)
    (h1 : F.skip_hidden_dirs = true) (hb : startsWithDot (path.getLastD "") = true)
    (hd1 : path.getLastD "" ≠ ".") (hd2 : path.getLastD "" ≠ "..") :
    F.categorize_directory path true = Kind.skip := by
  unfold Finder.categorize_directory
  rw [if_pos ⟨h1, hb, hd1, hd2⟩]

/-- Witness for C7: a hidden symlinked directory named `.git` under a
configuration skipping both hidden and symlinked directories. -/
theorem c7_witness :
    (Finder.init true true false [] [] true true 4096).categorize_directory [".git"] true =
      Kind.skip :=
  c7_hidden_check_precedes_symlink_check _ [".git"] rfl (by decide) (by decide) (by decide)

/-- C8: construction partitions {".gz"} into the exact set and {".tar.gz"}
into the suffix list via the splitext test on "foo.bar"+ext; consequently
with {".gz"} the file c.gz is skip instead of gzip, while with {".tar.gz"}
c.gz still classifies gzip but x.tar.gz is skip. -/
theorem c8_extension_partition_and_skip :
    finderSkipGz.skip_exts_simple = [".gz"] ∧
    finderSkipGz.skip_exts_endswith = [] ∧
    finderSkipTarGz.skip_exts_simple = [] ∧
    finderSkipTarGz.skip_exts_endswith = [".tar.gz"] ∧
    finderSkipGz.categorize_file ["c.gz"] false fdSecret = .ok .skip ∧
    finderSkipTarGz.categorize_file ["c.gz"] false fdSecret = .ok .gzip ∧
    finderSkipTarGz.categorize_file ["x.tar.gz"] false fdSecret = .ok .skip := by
  decide

/-- C2: on a file with magic bytes 0x1F 0x8B, a text decompressed probe
gives gzip and a binary decompressed probe gives binary; but when reading
the gzip stream raises, `_is_binary_file` raises `UnboundLocalError`
(its `except` clause assigns `is_binary = True`, then line 83 reads the
never-assigned local `bytes`), which no enclosing handler catches, so the
failure is not absorbed and no `binary` classification happens. -/
theorem c2_gzip_magic_classification :
    finderDefault.categorize_file ["d.dat"] false fdSecret = .ok .gzip ∧
    finderDefault.categorize_file ["d.dat"] false fdGzBinary = .ok .binary ∧
    finderDefault.categorize_file ["d.dat"] false fdGzCorrupt = .error .unboundLocalError := by
  decide

/-- C5: when the probe read raises inside the binary check, the check does
not return "is binary": `_is_binary_file` raises `UnboundLocalError` at
line 83 (the local `bytes` was never assigned; the `is_binary = True` set in
the handler is unreachable as a return value), and `categorize_file` lets it
escape because its handler only catches OSError/IOError. -/
theorem c5_probe_read_failure_raises :
    is_binary_file (.error .osError) = .error .unboundLocalError ∧
    is_binary_file (.error .eofError) = .error .unboundLocalError ∧
    finderDefault.categorize_file ["a.txt"] false ⟨false, [104, 105], true, .error .osError⟩ =
      .error .unboundLocalError := by
  decide

/-- One-step unfolding of `traverse` at a node that is not a directory. -/
theorem traverse_nondir (F : Finder) (p : List String) (m : Node)
    (hnd : ∀ il lok ch, m = Node.dir il lok ch → False) :
    F.traverse p m =
      match F.categorize_path p m with
      | .error e => ([], some e)
      | .ok k => if k.matchable = true then ([(p, k)], none) else ([], none) := by
  rw [Finder.traverse.eq_2 F p m hnd]
  rcases F.categorize_path p m with e | k
  · rfl
  · dsimp only
    by_cases hm : k.matchable = true
    · simp [hm]
    · simp [hm]

/-- One-step unfolding of `traverse` at any node. -/
theorem traverse_unfold (F : Finder) (p : List String) (m : Node) :
    F.traverse p m =
      match F.categorize_path p m with
      | .error e => ([], some e)
      | .ok k =>
        if k.matchable = true then ([(p, k)], none)
        else if k = Kind.directory then
          match m with
          | .dir _ list_ok children =>
            if list_ok = true then F.traverse_children p (List.insertionSort childLE children)
            else ([], none)
          | _ => ([], none)
        else ([], none) := by
  rcases m with ⟨il, fd⟩ | ⟨il, lok, ch⟩ | _ | _
  · rw [traverse_nondir F p _ (fun _ _ _ q => Node.noConfusion q)]
    rcases F.categorize_path p _ with e | k
    · rfl
    · dsimp only
      by_cases hm : k.matchable = true
      · simp [hm]
      · simp [hm]
  · rw [Finder.traverse.eq_1]
  · rw [traverse_nondir F p _ (fun _ _ _ q => Node.noConfusion q)]
    rcases F.categorize_path p _ with e | k
    · rfl
    · dsimp only
      by_cases hm : k.matchable = true
      · simp [hm]
      · simp [hm]
  · rw [traverse_nondir F p _ (fun _ _ _ q => Node.noConfusion q)]
    rcases F.categorize_path p _ with e | k
    · rfl
    · dsimp only
      by_cases hm : k.matchable = true
      · simp [hm]
      · simp [hm]

/-- The child loop of `traverse` is exactly the chained sequence of the
per-child contributions, in list order. -/
theorem traverse_children_eq_chain (F : Finder) (path : List String)
    (l : List (String × Node)) :
    F.traverse_children path l = seqChain (l.map (childStep F path)) := by
  induction l with
  | nil => simp [Finder.traverse_children, seqChain]
  | cons nc rest ih =>
    obtain ⟨name, c⟩ := nc
    rw [Finder.traverse_children]
    rw [List.map_cons]
    rcases h : F.categorize_path (path ++ [name]) c with e | k
    · simp only [childStep, h, seqChain]
    · by_cases hm : k.matchable = true
      · simp only [childStep, h, hm, if_pos, if_true, seqChain, ih, List.singleton_append]
      · by_cases hd : k = Kind.directory
        · subst hd
          by_cases hs : F.skip_sub_dirs = false
          · simp only [hm, if_false, Bool.false_eq_true, hs]
            rcases hsv : F.traverse (path ++ [name]) c with ⟨ys, err⟩
            have hcs : childStep F path (name, c) = (ys, err) := by
              simp only [childStep, h, hm, hs, hsv, if_false, and_self, if_true]
              simp
            rcases err with _ | e
            · simp only [hcs, seqChain, ih]
              simp [hsv]
            · simp only [hcs, seqChain]
              simp [hsv]
          · have hcs : childStep F path (name, c) = ([], none) := by
              simp [childStep, h, hm, hs]
            simp only [hcs, seqChain, ih]
            simp [hm, hs]
        · have hcs : childStep F path (name, c) = ([], none) := by
            simp [childStep, h, hm, hd]
          simp only [hcs, seqChain, ih]
          simp [hm, hd]

/-- C6: a listable directory that classifies `directory` yields exactly the
chained contributions of its children taken in sorted order — each child's
subtree is fully produced before the next sibling starts — and the sorted
child list is in byte-lexicographic (code point) basename order and is a
permutation of the directory's children. -/
theorem c6_traverse_sorted_depth_first (F : Finder) (path : List String) (il : Bool)
    (children : List (String × Node))
    (hdir : F.categorize_directory path il = Kind.directory) :
    F.traverse path (.dir il true children) =
      seqChain ((List.insertionSort childLE children).map (childStep F path)) ∧
    List.Sorted (fun a b : String => a ≤ b)
      ((List.insertionSort childLE children).map Prod.fst) ∧
    (List.insertionSort childLE children).Perm children := by
  refine ⟨?_, ?_, List.perm_insertionSort _ _⟩
  · rw [← traverse_children_eq_chain, Finder.traverse]
    simp [Finder.categorize_path, hdir, Kind.matchable]
  · exact List.Pairwise.map Prod.fst (fun a b h => h)
      (List.sorted_insertionSort childLE children)

/-- Witness for C6 at a concrete one-child directory. -/
theorem c6_witness :
    finderDefault.traverse ["root"] (.dir false true [("a.txt", .file false fdHello)]) =
      seqChain ((List.insertionSort childLE [("a.txt", .file false fdHello)]).map
        (childStep finderDefault ["root"])) ∧
    List.Sorted (fun a b : String => a ≤ b)
      ((List.insertionSort childLE [("a.txt", .file false fdHello)]).map Prod.fst) ∧
    (List.insertionSort childLE [("a.txt", .file false fdHello)]).Perm
      [("a.txt", .file false fdHello)] :=
  c6_traverse_sorted_depth_first finderDefault ["root"] false _ (by decide)

/-- Every entry the traversal yields carries a matchable kind. -/
theorem traverse_entries_matchable (F : Finder) (path : List String) (n : Node) :
    ∀ e ∈ (F.traverse path n).1, e.2.matchable = true := by
  refine Finder.traverse.induct F
    (fun p m => ∀ e ∈ (F.traverse p m).1, e.2.matchable = true)
    (fun p l => ∀ e ∈ (F.traverse_children p l).1, e.2.matchable = true)
    ?_ ?_ ?_ ?_ ?_ ?_ ?_ ?_ ?_ ?_ ?_ ?_ ?_ path n
  · intro p m e h x hx
    rw [traverse_unfold] at hx
    simp [h] at hx
  · intro p m k h hm x hx
    rw [traverse_unfold] at hx
    simp [h, hm] at hx
    subst hx
    exact hm
  · intro p il children hnm h ih x hx
    rw [traverse_unfold] at hx
    simp [h, Kind.matchable] at hx
    exact ih x hx
  · intro p il lok children hlok hnm h x hx
    rw [traverse_unfold] at hx
    cases lok
    · simp [h, Kind.matchable] at hx
    · exact absurd rfl hlok
  · intro p m hnd h hnm x hx
    rw [traverse_unfold] at hx
    rcases m with ⟨il, fd⟩ | ⟨il, lok, ch⟩ | _ | _
    · simp [h, Kind.matchable] at hx
    · exact ((hnd il lok ch) rfl).elim
    · simp [h, Kind.matchable] at hx
    · simp [h, Kind.matchable] at hx
  · intro p m k h hnm hnd x hx
    rw [traverse_unfold] at hx
    rcases m with ⟨il, fd⟩ | ⟨il, lok, ch⟩ | _ | _ <;>
      simp [h, hnm, hnd] at hx
  · intro p x hx
    rw [Finder.traverse_children.eq_1] at hx
    simp at hx
  · intro p name c rest cpath e h x hx
    rw [Finder.traverse_children.eq_2] at hx
    simp [h] at hx
  · intro p name c rest cpath k h hm ih x hx
    rw [Finder.traverse_children.eq_2] at hx
    simp only [h, hm, if_true] at hx
    rcases List.mem_cons.mp hx with h1 | h1
    · rw [h1]
      exact hm
    · exact ih x h1
  · intro p name c rest cpath hss s e hs2 h hnm ih1 x hx
    have hs3 : (F.traverse (p ++ [name]) c).2 = some e := hs2
    rw [Finder.traverse_children.eq_2] at hx
    simp [h, hnm, hss, hs3] at hx
    exact ih1 x hx
  · intro p name c rest cpath hss s hs2 h hnm ih1 ih2 x hx
    have hs3 : (F.traverse (p ++ [name]) c).2 = none := hs2
    rw [Finder.traverse_children.eq_2] at hx
    simp [h, hnm, hss, hs3] at hx
    rcases hx with h1 | h1
    · exact ih1 x h1
    · exact ih2 x h1
  · intro p name c rest cpath hss h hnm ih x hx
    rw [Finder.traverse_children.eq_2] at hx
    simp [h, hnm, hss] at hx
    exact ih x hx
  · intro p name c rest cpath k h hnm hnd ih x hx
    rw [Finder.traverse_children.eq_2] at hx
    simp [h, hnm, hnd] at hx
    exact ih x hx

/-- C3: for every start path and configuration, the traversal only ever
yields entries classified text, binary or gzip; skip, link, directory and
unreadable entries are never yielded. -/
theorem c3_traverse_yields_only_matchable (F : Finder) (path : List String) (n : Node) :
    ∀ e ∈ (F.traverse path n).1,
      e.2 = Kind.text ∨ e.2 = Kind.binary ∨ e.2 = Kind.gzip := by
  intro e he
  have h := traverse_entries_matchable F path n e he
  rcases e with ⟨p, k⟩
  rcases k with _ | _ | _ | _ | _ | _ | _ <;> simp_all [Kind.matchable]

/-- Witness for C3 at a concrete text file. -/
theorem c3_witness :
    ((["r"], Kind.text).2 = Kind.text ∨ (["r"], Kind.text).2 = Kind.binary ∨
      (["r"], Kind.text).2 = Kind.gzip) :=
  c3_traverse_yields_only_matchable finderDefault ["r"] (.file false fdHello) (["r"], Kind.text)
    (by rw [traverse_unfold]; decide)

/-- With `skip_hidden_dirs` set, a hidden directory classifies `skip`. -/
theorem categorize_directory_hidden (F : Finder) (p : List String) (il : Bool)
    (hF : F.skip_hidden_dirs = true) (hh : hiddenDirName (p.getLastD "") = true) :
    F.categorize_directory p il = Kind.skip := by
  simp only [hiddenDirName, Bool.and_eq_true, Bool.not_eq_true', decide_eq_false_iff_not] at hh
  unfold Finder.categorize_directory
  rw [if_pos ⟨hF, hh.1.1, hh.1.2, hh.2⟩]

/-- `categorize_file` never returns the `directory` tag. -/
theorem categorize_file_ne_directory (F : Finder) (p : List String) (il : Bool) (fd : FileData) :
    F.categorize_file p il fd ≠ .ok Kind.directory := by
  intro h
  unfold Finder.categorize_file at h
  repeat' split at h
  all_goals simp_all [ite_eq_iff]

/-- With `skip_hidden_dirs` set, a path that classifies `directory` cannot
have a hidden basename. -/
theorem not_hidden_of_path_directory (F : Finder) (hF : F.skip_hidden_dirs = true)
    (p : List String) (c : Node) (h : F.categorize_path p c = .ok Kind.directory) :
    hiddenDirName (p.getLastD "") = false := by
  rcases c with ⟨il, fd⟩ | ⟨il, lok, ch⟩ | _ | _
  · exact absurd h (categorize_file_ne_directory F p il fd)
  · simp only [Finder.categorize_path, Except.ok.injEq] at h
    rcases hh : hiddenDirName (p.getLastD "") with _ | _
    · rfl
    · rw [categorize_directory_hidden F p il hF hh] at h
      exact absurd h (by simp)
  · simp [Finder.categorize_path] at h
  · simp [Finder.categorize_path] at h

/-- Every yielded entry sits at `path ++ rest` where every component of
`rest` but the last names a traversed, necessarily non-hidden directory. -/
theorem traverse_entries_under (F : Finder) (hF : F.skip_hidden_dirs = true)
    (path : List String) (n : Node) :
    ∀ e ∈ (F.traverse path n).1, ∃ rest, e.1 = path ++ rest ∧
      ∀ s ∈ rest.dropLast, hiddenDirName s = false := by
  refine Finder.traverse.induct F
    (fun p m => ∀ e ∈ (F.traverse p m).1, ∃ rest, e.1 = p ++ rest ∧
      ∀ s ∈ rest.dropLast, hiddenDirName s = false)
    (fun p l => ∀ e ∈ (F.traverse_children p l).1, ∃ rest, e.1 = p ++ rest ∧
      ∀ s ∈ rest.dropLast, hiddenDirName s = false)
    ?_ ?_ ?_ ?_ ?_ ?_ ?_ ?_ ?_ ?_ ?_ ?_ ?_ path n
  · intro p m e h x hx
    rw [traverse_unfold] at hx
    simp [h] at hx
  · intro p m k h hm x hx
    rw [traverse_unfold] at hx
    simp [h, hm] at hx
    subst hx
    exact ⟨[], by simp, by simp⟩
  · intro p il children hnm h ih x hx
    rw [traverse_unfold] at hx
    simp [h, Kind.matchable] at hx
    exact ih x hx
  · intro p il lok children hlok hnm h x hx
    rw [traverse_unfold] at hx
    cases lok
    · simp [h, Kind.matchable] at hx
    · exact absurd rfl hlok
  · intro p m hnd h hnm x hx
    rw [traverse_unfold] at hx
    rcases m with ⟨il, fd⟩ | ⟨il, lok, ch⟩ | _ | _
    · simp [h, Kind.matchable] at hx
    · exact ((hnd il lok ch) rfl).elim
    · simp [h, Kind.matchable] at hx
    · simp [h, Kind.matchable] at hx
  · intro p m k h hnm hnd x hx
    rw [traverse_unfold] at hx
    rcases m with ⟨il, fd⟩ | ⟨il, lok, ch⟩ | _ | _ <;>
      simp [h, hnm, hnd] at hx
  · intro p x hx
    rw [Finder.traverse_children.eq_1] at hx
    simp at hx
  · intro p name c rest cpath e h x hx
    rw [Finder.traverse_children.eq_2] at hx
    simp [h] at hx
  · intro p name c rest cpath k h hm ih x hx
    rw [Finder.traverse_children.eq_2] at hx
    simp only [h, hm, if_true] at hx
    rcases List.mem_cons.mp hx with h1 | h1
    · rw [h1]
      exact ⟨[name], rfl, by simp⟩
    · exact ih x h1
  · intro p name c rest cpath hss s e hs2 h hnm ih1 x hx
    have hs3 : (F.traverse (p ++ [name]) c).2 = some e := hs2
    have h2 : F.categorize_path (p ++ [name]) c = .ok Kind.directory := h
    rw [Finder.traverse_children.eq_2] at hx
    simp [h, hnm, hss, hs3] at hx
    rcases ih1 x hx with ⟨rest1, hr1, hr2⟩
    have hname : hiddenDirName name = false := by
      have := not_hidden_of_path_directory F hF (p ++ [name]) c h2
      rwa [List.getLastD_concat] at this
    refine ⟨name :: rest1, by
      rw [hr1]
      show (p ++ [name]) ++ rest1 = p ++ name :: rest1
      simp, ?_⟩
    rcases rest1 with _ | ⟨r0, rtail⟩
    · simp
    · rw [List.dropLast_cons₂]
      intro s1 hs1
      rcases List.mem_cons.mp hs1 with h3 | h3
      · rw [h3]
        exact hname
      · exact hr2 s1 h3
  · intro p name c rest cpath hss s hs2 h hnm ih1 ih2 x hx
    have hs3 : (F.traverse (p ++ [name]) c).2 = none := hs2
    have h2 : F.categorize_path (p ++ [name]) c = .ok Kind.directory := h
    rw [Finder.traverse_children.eq_2] at hx
    simp [h, hnm, hss, hs3] at hx
    rcases hx with h1 | h1
    · rcases ih1 x h1 with ⟨rest1, hr1, hr2⟩
      have hname : hiddenDirName name = false := by
        have := not_hidden_of_path_directory F hF (p ++ [name]) c h2
        rwa [List.getLastD_concat] at this
      refine ⟨name :: rest1, by
        rw [hr1]
        show (p ++ [name]) ++ rest1 = p ++ name :: rest1
        simp, ?_⟩
      rcases rest1 with _ | ⟨r0, rtail⟩
      · simp
      · rw [List.dropLast_cons₂]
        intro s1 hs1
        rcases List.mem_cons.mp hs1 with h3 | h3
        · rw [h3]
          exact hname
        · exact hr2 s1 h3
    · exact ih2 x h1
  · intro p name c rest cpath hss h hnm ih x hx
    rw [Finder.traverse_children.eq_2] at hx
    simp [h, hnm, hss] at hx
    exact ih x hx
  · intro p name c rest cpath k h hnm hnd ih x hx
    rw [Finder.traverse_children.eq_2] at hx
    simp [h, hnm, hnd] at hx
    exact ih x hx

/-- C9: when `skip_hidden_dirs` is set, no descendant of a hidden directory
is ever yielded: every yielded path extends the start path by components
whose directory part is free of hidden names, and traversal of a hidden
directory itself yields nothing at once. -/
theorem c9_hidden_dir_descendants_never_yielded (F : Finder)
    (hF : F.skip_hidden_dirs = true) :
    (∀ (path : List String) (n : Node), ∀ e ∈ (F.traverse path n).1,
      ∃ rest, e.1 = path ++ rest ∧ ∀ s ∈ rest.dropLast, hiddenDirName s = false) ∧
    (∀ (path : List String) (il lok : Bool) (children : List (String × Node)),
      hiddenDirName (path.getLastD "") = true →
      F.traverse path (.dir il lok children) = ([], none)) := by
  constructor
  · exact fun path n => traverse_entries_under F hF path n
  · intro path il lok children hh
    rw [traverse_unfold]
    have hcat : F.categorize_path path (.dir il lok children) = .ok Kind.skip := by
      simp [Finder.categorize_path, categorize_directory_hidden F path il hF hh]
    rw [hcat]
    simp [Kind.matchable]

/-- Witness for C9 under a concrete hidden-skipping Finder. -/
theorem c9_witness :
    (∀ (path : List String) (n : Node), ∀ e ∈ (finderHiddenDirs.traverse path n).1,
      ∃ rest, e.1 = path ++ rest ∧ ∀ s ∈ rest.dropLast, hiddenDirName s = false) ∧
    (∀ (path : List String) (il lok : Bool) (children : List (String × Node)),
      hiddenDirName (path.getLastD "") = true →
      finderHiddenDirs.traverse path (.dir il lok children) = ([], none)) :=
  c9_hidden_dir_descendants_never_yielded finderHiddenDirs rfl
